import Mathlib

/-!
Verification of the messaging/room core of a browser chat client
(`torokuro-securechatv2`).  The service layer (`src/services/storageService.ts`
and its revision `src/unnamed/part_000`) delegates persistence to a document
store; here the store is embedded as explicit state (association lists of user
and room documents) and each service function becomes a pure Lean function on
that state.  The crypto envelope (`src/utils/security.ts`) is embedded over an
abstract model of the Web Crypto AES-GCM primitives, with the pure base64 and
string-splitting plumbing implemented concretely.
-/

set_option autoImplicit false

namespace SecureChat

/-- Message origin, from the `sender` field: `'user' | 'ai' | 'system'`. -/
inductive Sender where
  | user
  | ai
  | system
deriving DecidableEq, Repr

/-- Room kind, from the `type` field: `'group' | 'private'`. -/
inductive RoomType where
  | group
  | priv
deriving DecidableEq, Repr

/-- Chat message document.  Fields are those the service layer reads or
writes (`id`, `sender`, `senderName`, `content`, `timestamp`, `readBy`);
remaining UI-only fields (`type`, `fileName`, `fileSize`) are omitted as no
claimed operation touches them. -/
structure Message where
  id : String
  sender : Sender
  senderName : String
  content : String
  timestamp : Nat
  readBy : List String
deriving DecidableEq, Repr

/-- Room document, as created in `App.tsx` and `handleFriendRequest`. -/
structure Room where
  id : String
  name : String
  type : RoomType
  creatorId : String
  createdAt : Nat
  participants : List String
  messages : List Message
  bannedUsers : List String
  mutedUsers : List String
deriving DecidableEq, Repr

/-- User document.  Fields are those the claimed operations touch:
`id`, `username`, `friends`, `friendRequests`. -/
structure User where
  id : String
  username : String
  friends : List String
  friendRequests : List String
deriving DecidableEq, Repr

/-- The document store: the `users` and `rooms` collections.  Rooms are keyed
by their document id (the key under which `setDoc`/`updateDoc` address them). -/
structure Store where
  users : List User
  rooms : List (String × Room)
deriving DecidableEq, Repr

/-- Firestore `arrayUnion` with a single element: server-side set-union append —
adds the element at the end iff it is not already present. -/
def arrayUnion (l : List String) (x : String) : List String :=
  if x ∈ l then l else l ++ [x]

/-- `getDoc` on the rooms collection. -/
def getRoom (st : Store) (roomId : String) : Option Room :=
  (st.rooms.find? (fun p => p.1 = roomId)).map Prod.snd

/-- `setDoc` on the rooms collection: full replace if the id exists, create
otherwise. -/
def putRoom (st : Store) (roomId : String) (r : Room) : Store :=
  if st.rooms.any (fun p => p.1 = roomId) then
    { st with rooms := st.rooms.map (fun p => if p.1 = roomId then (roomId, r) else p) }
  else
    { st with rooms := st.rooms ++ [(roomId, r)] }

/-- `updateDoc` on an existing room document: apply field patches to the stored
document, no-op when the document is absent. -/
def updateRoom (st : Store) (roomId : String) (f : Room → Room) : Store :=
  { st with rooms := st.rooms.map (fun p => if p.1 = roomId then (p.1, f p.2) else p) }

/-- `getDoc` on the users collection (documents are keyed by `user.id`). -/
def getUserById (st : Store) (userId : String) : Option User :=
  st.users.find? (fun u => u.id = userId)

/-- `updateDoc` on a user document: apply field patches to the stored
document, no-op when the document is absent. -/
def updateUser (st : Store) (userId : String) (f : User → User) : Store :=
  { st with users := st.users.map (fun u => if u.id = userId then f u else u) }

/-- `searchUsersByName`: the `where("username", "==", username)` query. -/
def searchUsersByName (st : Store) (username : String) : List User :=
  st.users.filter (fun u => u.username = username)

/-- Result shape of `joinRoom`: `{ success: boolean, error?: string }`. -/
structure JoinResult where
  success : Bool
  error : Option String := none
deriving DecidableEq, Repr

/-- `createRoom` (`storageService.ts:137`): persist the given room under its id. -/
def createRoom (st : Store) (room : Room) : Store :=
  putRoom st room.id room

/-- `joinRoom` (`storageService.ts:141-167`).  Admin callers bypass the ban and
privacy checks and are added to `participants` if absent; other callers fail on
the ban list, fail on closed private rooms, and are otherwise added if absent. -/
def joinRoom (st : Store) (roomId userId : String) (isAdmin : Bool := false) :
    JoinResult × Store :=
  match getRoom st roomId with
  | none => ({ success := false, error := some "Room not found" }, st)
  | some room =>
    if isAdmin then
      if userId ∈ room.participants then
        ({ success := true }, st)
      else
        ({ success := true },
         updateRoom st roomId (fun r => { r with participants := arrayUnion r.participants userId }))
    else if userId ∈ room.bannedUsers then
      ({ success := false, error := some "Access Denied: Banned." }, st)
    else if room.type = RoomType.priv ∧ userId ∉ room.participants then
      ({ success := false, error := some "Access Denied: Private channel." }, st)
    else if userId ∉ room.participants then
      ({ success := true },
       updateRoom st roomId (fun r => { r with participants := arrayUnion r.participants userId }))
    else
      ({ success := true }, st)

/-- `executeCommand` (`storageService.ts:246-277`): resolve the target username,
fetch the room, and dispatch `/kick`, `/ban`, `/mute`.  The acting `adminId`
argument is accepted but never consulted. -/
def executeCommand (st : Store) (roomId adminId command targetUsername : String) :
    String × Store :=
  match searchUsersByName st targetUsername with
  | [] => ("User " ++ targetUsername ++ " not found", st)
  | targetUser :: _ =>
    match getRoom st roomId with
    | none => ("Room error", st)
    | some room =>
      if command = "/kick" then
        ("User " ++ targetUsername ++ " kicked.",
         updateRoom st roomId (fun r =>
           { r with participants := room.participants.filter (fun id => id ≠ targetUser.id) }))
      else if command = "/ban" then
        ("User " ++ targetUsername ++ " banned.",
         updateRoom st roomId (fun r =>
           { r with participants := room.participants.filter (fun id => id ≠ targetUser.id),
                    bannedUsers := arrayUnion r.bannedUsers targetUser.id }))
      else if command = "/mute" then
        ("User " ++ targetUsername ++ " muted.",
         updateRoom st roomId (fun r =>
           { r with mutedUsers := arrayUnion r.mutedUsers targetUser.id }))
      else
        ("Unknown command", st)

/-- The deterministic private-room id built in `handleFriendRequest`:
`private-` followed by the two ids joined by `-` in JS `sort()` (lexicographic)
order. -/
def privateRoomId (userId requesterId : String) : String :=
  "private-" ++
    (if userId < requesterId then userId ++ "-" ++ requesterId
     else requesterId ++ "-" ++ userId)

/-- Friend-request resolution action. -/
inductive FrAction where
  | accept
  | reject
deriving DecidableEq, Repr

/-- `handleFriendRequest` (`storageService.ts:90-133`): drop the request, and on
accept symmetrically add the two ids to each other's `friends` and create the
deterministic private room if it does not already exist.  `now` stands for
`Date.now()` at room-creation time. -/
def handleFriendRequest (st : Store) (userId requesterId : String)
    (action : FrAction) (now : Nat) : Store :=
  match getUserById st userId with
  | none => st
  | some userData =>
    let newRequests := userData.friendRequests.filter (fun id => id ≠ requesterId)
    let st1 := updateUser st userId (fun u => { u with friendRequests := newRequests })
    match action with
    | FrAction.reject => st1
    | FrAction.accept =>
      let st2 := updateUser st1 userId (fun u => { u with friends := arrayUnion u.friends requesterId })
      let st3 := updateUser st2 requesterId (fun u => { u with friends := arrayUnion u.friends userId })
      let roomId := privateRoomId userId requesterId
      match getRoom st3 roomId with
      | some _ => st3
      | none =>
        let rName := match getUserById st3 requesterId with
          | some requesterData => requesterData.username
          | none => "Unknown"
        let newRoom : Room :=
          { id := roomId
            name := rName ++ " & " ++ userData.username
            type := RoomType.priv
            creatorId := "system"
            createdAt := now
            participants := [userId, requesterId]
            messages := []
            bannedUsers := []
            mutedUsers := [] }
        putRoom st3 roomId newRoom

/-- Qualification predicate of `markMessagesAsRead`: the message is user-origin,
not yet read by this reader, and not sent under the reader's name. -/
def qualifies (userId : String) (msg : Message) : Bool :=
  msg.sender = Sender.user ∧ userId ∉ msg.readBy ∧ msg.senderName ≠ userId

/-- `markMessagesAsRead` (`storageService.ts:197-216`, embedded-array revision):
rewrite the whole `messages` array of the stored room, adding `userId` to the
`readBy` of every qualifying message of the passed snapshot, and only touch the
store when at least one message qualified. -/
def markMessagesAsRead (st : Store) (roomId userId : String) (room : Room) : Store :=
  let updatedMessages := room.messages.map (fun msg =>
    if qualifies userId msg then { msg with readBy := msg.readBy ++ [userId] } else msg)
  let hasChanges := room.messages.any (fun msg => qualifies userId msg)
  if hasChanges then
    updateRoom st roomId (fun r => { r with messages := updatedMessages })
  else
    st

/-- Batch cap of the sub-collection revision of `markMessagesAsRead`
(`src/unnamed/part_000:206`): `const maxBatch = 400`. -/
def maxBatch : Nat := 400

/-- The loop of the sub-collection `markMessagesAsRead`
(`src/unnamed/part_000:208-215`): walk the candidate messages, collecting the
ids of qualifying ones, stopping silently once `updateCount` reaches the cap. -/
def collectMarkTargets (userId : String) : List Message → Nat → List String
  | [], _ => []
  | msg :: rest, updateCount =>
    if maxBatch ≤ updateCount then []
    else if qualifies userId msg then
      msg.id :: collectMarkTargets userId rest (updateCount + 1)
    else
      collectMarkTargets userId rest updateCount

/-- `markMessagesAsRead` (`src/unnamed/part_000:203-224`, sub-collection
revision): the committed batch applies `readBy: arrayUnion(userId)` to each
targeted message document of the room's message sub-collection `docs`. -/
def markMessagesAsReadBatch (docs : List Message) (userId : String)
    (messages : List Message) : List Message :=
  let targets := collectMarkTargets userId messages 0
  docs.map (fun d =>
    if d.id ∈ targets then { d with readBy := arrayUnion d.readBy userId } else d)

/-!
### Crypto envelope (`src/utils/security.ts`)

JS strings are embedded as `List Char`; byte buffers (`Uint8Array` /
`ArrayBuffer`) as `List Nat` with every element `< 256`.  The Web Crypto
primitives (PBKDF2 key derivation and AES-GCM under the derived master key,
`TextEncoder`/`TextDecoder`) are external to the repository and are modelled
abstractly by `CryptoModel`; the pure plumbing (base64 via `btoa`/`atob`
together with the `String.fromCharCode`/`charCodeAt` loops of
`arrayBufferToBase64`/`base64ToArrayBuffer`, and the `split(':')` framing) is
implemented concretely.
-/

/-- The 64-character base64 alphabet used by `btoa`. -/
def b64Alphabet : List Char :=
  "ABCDEFGHIJKLMNOPQRSTUVWXYZabcdefghijklmnopqrstuvwxyz0123456789+/".data

/-- Character for a six-bit group. -/
def b64Char (n : Nat) : Char :=
  b64Alphabet.getD n 'A'

/-- Index of a character in the base64 alphabet, scanning from position `i`. -/
def b64ValAux : List Char → Char → Nat → Option Nat
  | [], _, _ => none
  | a :: rest, c, i => if a = c then some i else b64ValAux rest c (i + 1)

/-- Six-bit value of a base64 character, `none` for a character outside the
alphabet (where `atob` throws). -/
def b64Val (c : Char) : Option Nat :=
  b64ValAux b64Alphabet c 0

/-- `arrayBufferToBase64` (`security.ts:35-43`): bytes to binary string to
`btoa`, i.e. standard base64 encoding of the byte sequence. -/
def arrayBufferToBase64 : List Nat → List Char
  | [] => []
  | [b0] =>
    [b64Char (b0 / 4), b64Char (b0 % 4 * 16), '=', '=']
  | [b0, b1] =>
    [b64Char (b0 / 4), b64Char (b0 % 4 * 16 + b1 / 16), b64Char (b1 % 16 * 4), '=']
  | b0 :: b1 :: b2 :: rest =>
    b64Char (b0 / 4) :: b64Char (b0 % 4 * 16 + b1 / 16) ::
      b64Char (b1 % 16 * 4 + b2 / 64) :: b64Char (b2 % 64) ::
      arrayBufferToBase64 rest

/-- `base64ToArrayBuffer` (`security.ts:46-54`): `atob` (strict base64 decode,
`none` where `atob` throws on malformed input) followed by the `charCodeAt`
loop that turns the binary string into bytes. -/
def base64ToArrayBuffer : List Char → Option (List Nat)
  | [] => some []
  | c0 :: c1 :: c2 :: c3 :: rest =>
    match b64Val c0, b64Val c1 with
    | some s0, some s1 =>
      if c2 = '=' then
        if c3 = '=' ∧ rest = [] then some [s0 * 4 + s1 / 16] else none
      else
        match b64Val c2 with
        | some s2 =>
          if c3 = '=' then
            if rest = [] then some [s0 * 4 + s1 / 16, s1 % 16 * 16 + s2 / 4] else none
          else
            match b64Val c3 with
            | some s3 =>
              match base64ToArrayBuffer rest with
              | some tl =>
                some ((s0 * 4 + s1 / 16) :: (s1 % 16 * 16 + s2 / 4) ::
                  (s2 % 4 * 64 + s3) :: tl)
              | none => none
            | none => none
        | none => none
    | _, _ => none
  | _ => none

/-- JS `String.prototype.split` with a one-character separator. -/
def splitOnChar (s : List Char) (sep : Char) : List (List Char) :=
  match s with
  | [] => [[]]
  | c :: rest =>
    if c = sep then [] :: splitOnChar rest sep
    else
      match splitOnChar rest sep with
      | [] => [[c]]
      | p :: ps => (c :: p) :: ps

/-- Abstract model of the external Web Crypto / text-codec primitives used by
`security.ts`.  `encGCM`/`decGCM` are AES-GCM encryption/decryption under the
fixed PBKDF2-derived master key, taking the IV and the input bytes; `none`
models a thrown exception (key-derivation failure for `encGCM`,
authentication-tag mismatch for `decGCM`).  `encodeText`/`decodeText` are
`TextEncoder().encode` and `TextDecoder().decode` (the latter never throws). -/
structure CryptoModel where
  encodeText : List Char → List Nat
  decodeText : List Nat → List Char
  encGCM : List Nat → List Nat → Option (List Nat)
  decGCM : List Nat → List Nat → Option (List Nat)

/-- `encryptMessage` (`security.ts:56-79`).  `iv` is the 12-byte value
`getRandomValues` produced for this call.  On success the envelope is
`IV_BASE64 : ENCRYPTED_DATA_BASE64`; if anything in the `try` block throws
(modelled by `encGCM` returning `none`), the catch returns the plaintext. -/
def encryptMessage (c : CryptoModel) (iv : List Nat) (text : List Char) : List Char :=
  match c.encGCM iv (c.encodeText text) with
  | some encryptedData =>
    arrayBufferToBase64 iv ++ ':' :: arrayBufferToBase64 encryptedData
  | none => text

/-- The decode chain inside `decryptMessage`'s `try` block: split on `:`, take
the first two parts, base64-decode both and AES-GCM-decrypt.  `none` is any
thrown-and-caught failure (malformed base64, tag mismatch). -/
def envelopeOpens (c : CryptoModel) (encryptedText : List Char) : Option (List Nat) :=
  let parts := splitOnChar encryptedText ':'
  match base64ToArrayBuffer (parts.getD 0 []) with
  | none => none
  | some iv =>
    match base64ToArrayBuffer (parts.getD 1 []) with
    | none => none
    | some data => c.decGCM iv data

/-- `decryptMessage` (`security.ts:81-105`): return inputs without the `:`
marker unchanged; otherwise attempt the decode chain, returning the original
input on any failure and the decoded text on success. -/
def decryptMessage (c : CryptoModel) (encryptedText : List Char) : List Char :=
  if ':' ∉ encryptedText then encryptedText
  else
    match envelopeOpens c encryptedText with
    | some decryptedData => c.decodeText decryptedData
    | none => encryptedText

/-- Toy instantiation of the crypto primitives in which AES-GCM is the
identity on byte lists and text codes characters pointwise; used to evaluate
the envelope theorems on concrete inputs. -/
def idCrypto : CryptoModel where
  encodeText s := s.map Char.toNat
  decodeText l := l.map Char.ofNat
  encGCM _ pt := some pt
  decGCM _ ct := some ct

/-- Toy instantiation in which every AES-GCM call throws; used to evaluate the
fallback paths on concrete inputs. -/
def failCrypto : CryptoModel where
  encodeText s := s.map Char.toNat
  decodeText l := l.map Char.ofNat
  encGCM _ _ := none
  decGCM _ _ := none

/-! ### Invariants and concrete fixtures -/

/-- The spec's room invariant: `bannedUsers ∩ participants = ∅`. -/
def roomInvariant (r : Room) : Prop :=
  ∀ x ∈ r.bannedUsers, x ∉ r.participants

/-- The room invariant, at every room document of the store. -/
def storeInvariant (st : Store) : Prop :=
  ∀ p ∈ st.rooms, roomInvariant p.2

instance (r : Room) : Decidable (roomInvariant r) :=
  inferInstanceAs (Decidable (∀ x ∈ r.bannedUsers, x ∉ r.participants))

instance (st : Store) : Decidable (storeInvariant st) :=
  inferInstanceAs (Decidable (∀ p ∈ st.rooms, roomInvariant p.2))

/-- Placeholder message used as the `getD` default in positional statements. -/
def dummyMessage : Message :=
  { id := "", sender := Sender.system, senderName := "", content := "",
    timestamp := 0, readBy := [] }

/-- Fixture user. -/
def alice : User :=
  { id := "alice", username := "Alice", friends := [], friendRequests := ["bob"] }

/-- Fixture user. -/
def bob : User :=
  { id := "bob", username := "Bob", friends := [], friendRequests := [] }

/-- Fixture user. -/
def carol : User :=
  { id := "carol", username := "Carol", friends := [], friendRequests := [] }

/-- Fixture group room where `dave` is banned and not a participant. -/
def lobbyRoom : Room :=
  { id := "1234567", name := "lobby", type := RoomType.group, creatorId := "alice",
    createdAt := 0, participants := ["alice", "carol"],
    messages := [], bannedUsers := ["dave"], mutedUsers := [] }

/-- Fixture private room. -/
def pairRoom : Room :=
  { id := "private-alice-bob", name := "Alice & Bob", type := RoomType.priv,
    creatorId := "system", createdAt := 0, participants := ["alice", "bob"],
    messages := [], bannedUsers := [], mutedUsers := [] }

/-- Fixture store. -/
def baseStore : Store :=
  { users := [alice, bob, carol],
    rooms := [("1234567", lobbyRoom), ("private-alice-bob", pairRoom)] }

/-- Fixture message from `carol` unread by `alice`. -/
def msgFromCarol : Message :=
  { id := "m1", sender := Sender.user, senderName := "carol", content := "hey",
    timestamp := 1, readBy := [] }

/-- Fixture message already read by `alice`. -/
def msgRead : Message :=
  { id := "m2", sender := Sender.user, senderName := "carol", content := "old",
    timestamp := 0, readBy := ["alice"] }

/-- Fixture system message (never marked read). -/
def msgSystem : Message :=
  { id := "m3", sender := Sender.system, senderName := "System", content := "note",
    timestamp := 2, readBy := [] }

/-- Fixture room carrying the three fixture messages. -/
def chatRoom : Room :=
  { lobbyRoom with id := "chat", messages := [msgFromCarol, msgRead, msgSystem] }

/-- Fixture store for the read-receipt claims. -/
def chatStore : Store :=
  { users := [alice, bob, carol], rooms := [("chat", chatRoom)] }

/-! ### Lemmas: base64 and envelope framing -/

lemma b64Val_b64Char : ∀ n < 64, b64Val (b64Char n) = some n := by decide

lemma b64Char_ne_eqChar : ∀ n < 64, b64Char n ≠ '=' := by decide

lemma b64Char_ne_colon (n : Nat) : b64Char n ≠ ':' := by
  by_cases h : n < 64
  · exact (by decide : ∀ m < 64, b64Char m ≠ ':') n h
  · have hlen : b64Alphabet.length = 64 := by decide
    have : b64Char n = 'A' := by
      unfold b64Char
      exact List.getD_eq_default _ _ (by omega)
    rw [this]; decide

lemma arrayBufferToBase64_no_colon : ∀ (l : List Nat), ':' ∉ arrayBufferToBase64 l
  | [] => by simp [arrayBufferToBase64]
  | [b0] => by
    simp only [arrayBufferToBase64, List.mem_cons, List.not_mem_nil, or_false]
    push_neg
    refine ⟨(b64Char_ne_colon _).symm, (b64Char_ne_colon _).symm, by decide, by decide⟩
  | [b0, b1] => by
    simp only [arrayBufferToBase64, List.mem_cons, List.not_mem_nil, or_false]
    push_neg
    exact ⟨(b64Char_ne_colon _).symm, (b64Char_ne_colon _).symm,
      (b64Char_ne_colon _).symm, by decide⟩
  | b0 :: b1 :: b2 :: rest => by
    have ih := arrayBufferToBase64_no_colon rest
    simp only [arrayBufferToBase64, List.mem_cons]
    push_neg
    exact ⟨(b64Char_ne_colon _).symm, (b64Char_ne_colon _).symm,
      (b64Char_ne_colon _).symm, (b64Char_ne_colon _).symm, ih⟩

lemma base64_roundtrip : ∀ (l : List Nat), (∀ b ∈ l, b < 256) →
    base64ToArrayBuffer (arrayBufferToBase64 l) = some l
  | [], _ => rfl
  | [b0], h => by
    have hb0 : b0 < 256 := h b0 (by simp)
    have h0 : b64Val (b64Char (b0 / 4)) = some (b0 / 4) :=
      b64Val_b64Char _ (by omega)
    have h1 : b64Val (b64Char (b0 % 4 * 16)) = some (b0 % 4 * 16) :=
      b64Val_b64Char _ (by omega)
    have e0 : b0 / 4 * 4 + b0 % 4 * 16 / 16 = b0 := by omega
    simp only [arrayBufferToBase64, base64ToArrayBuffer, h0, h1,
      eq_self_iff_true, and_self, if_true, e0]
  | [b0, b1], h => by
    have hb0 : b0 < 256 := h b0 (by simp)
    have hb1 : b1 < 256 := h b1 (by simp)
    have h0 : b64Val (b64Char (b0 / 4)) = some (b0 / 4) :=
      b64Val_b64Char _ (by omega)
    have h1 : b64Val (b64Char (b0 % 4 * 16 + b1 / 16)) = some (b0 % 4 * 16 + b1 / 16) :=
      b64Val_b64Char _ (by omega)
    have h2 : b64Val (b64Char (b1 % 16 * 4)) = some (b1 % 16 * 4) :=
      b64Val_b64Char _ (by omega)
    have hne : b64Char (b1 % 16 * 4) ≠ '=' := b64Char_ne_eqChar _ (by omega)
    have e0 : b0 / 4 * 4 + (b0 % 4 * 16 + b1 / 16) / 16 = b0 := by omega
    have e1 : (b0 % 4 * 16 + b1 / 16) % 16 * 16 + b1 % 16 * 4 / 4 = b1 := by omega
    simp only [arrayBufferToBase64, base64ToArrayBuffer, h0, h1, h2,
      if_neg hne, eq_self_iff_true, and_self, if_true, e0, e1]
  | b0 :: b1 :: b2 :: rest, h => by
    have hb0 : b0 < 256 := h b0 (by simp)
    have hb1 : b1 < 256 := h b1 (by simp)
    have hb2 : b2 < 256 := h b2 (by simp)
    have ih := base64_roundtrip rest (fun b hb => h b (by simp [hb]))
    have h0 : b64Val (b64Char (b0 / 4)) = some (b0 / 4) :=
      b64Val_b64Char _ (by omega)
    have h1 : b64Val (b64Char (b0 % 4 * 16 + b1 / 16)) = some (b0 % 4 * 16 + b1 / 16) :=
      b64Val_b64Char _ (by omega)
    have h2 : b64Val (b64Char (b1 % 16 * 4 + b2 / 64)) = some (b1 % 16 * 4 + b2 / 64) :=
      b64Val_b64Char _ (by omega)
    have h3 : b64Val (b64Char (b2 % 64)) = some (b2 % 64) :=
      b64Val_b64Char _ (by omega)
    have hne2 : b64Char (b1 % 16 * 4 + b2 / 64) ≠ '=' := b64Char_ne_eqChar _ (by omega)
    have hne3 : b64Char (b2 % 64) ≠ '=' := b64Char_ne_eqChar _ (by omega)
    have e0 : b0 / 4 * 4 + (b0 % 4 * 16 + b1 / 16) / 16 = b0 := by omega
    have e1 : (b0 % 4 * 16 + b1 / 16) % 16 * 16 + (b1 % 16 * 4 + b2 / 64) / 4 = b1 := by
      omega
    have e2 : (b1 % 16 * 4 + b2 / 64) % 4 * 64 + b2 % 64 = b2 := by omega
    simp only [arrayBufferToBase64, base64ToArrayBuffer, h0, h1, h2, h3,
      if_neg hne2, if_neg hne3, ih, e0, e1, e2]

lemma splitOnChar_of_not_mem : ∀ {s : List Char} {sep : Char}, sep ∉ s →
    splitOnChar s sep = [s]
  | [], _, _ => rfl
  | c :: rest, sep, h => by
    have hc : ¬c = sep := fun he => h (by simp [he])
    have hr : sep ∉ rest := fun hm => h (by simp [hm])
    simp only [splitOnChar, if_neg hc, splitOnChar_of_not_mem hr]

lemma splitOnChar_append : ∀ {a : List Char} (b : List Char) {sep : Char}, sep ∉ a →
    splitOnChar (a ++ sep :: b) sep = a :: splitOnChar b sep
  | [], b, sep, _ => by simp [splitOnChar]
  | c :: rest, b, sep, h => by
    have hc : ¬c = sep := fun he => h (by simp [he])
    have hr : sep ∉ rest := fun hm => h (by simp [hm])
    have ih := splitOnChar_append (a := rest) b hr
    simp only [List.cons_append, splitOnChar, if_neg hc, List.append_eq, ih]

lemma split_envelope {ea eb : List Char} (ha : ':' ∉ ea) (hb : ':' ∉ eb) :
    splitOnChar (ea ++ ':' :: eb) ':' = [ea, eb] := by
  rw [splitOnChar_append eb ha, splitOnChar_of_not_mem hb]

/-! ### Claim theorems: crypto envelope -/

/-- C3: for every plaintext `P`, decrypting the result of encrypting `P`
returns `P` — `open (seal P) = P`.  The hypotheses are the contract of the
external AES-GCM / text-codec primitives at this input: encryption succeeded
producing byte output `ct`, GCM decryption under the same key and IV inverts
it, and the UTF-8 codec round-trips; `iv` and `ct` are byte buffers. -/
theorem open_seal_roundtrip (c : CryptoModel) (iv ct : List Nat) (P : List Char)
    (henc : c.encGCM iv (c.encodeText P) = some ct)
    (hiv : ∀ b ∈ iv, b < 256) (hct : ∀ b ∈ ct, b < 256)
    (hdec : c.decGCM iv ct = some (c.encodeText P))
    (htext : c.decodeText (c.encodeText P) = P) :
    decryptMessage c (encryptMessage c iv P) = P := by
  unfold encryptMessage
  rw [henc]
  have ha : ':' ∉ arrayBufferToBase64 iv := arrayBufferToBase64_no_colon iv
  have hb : ':' ∉ arrayBufferToBase64 ct := arrayBufferToBase64_no_colon ct
  have hmem : ':' ∈ arrayBufferToBase64 iv ++ ':' :: arrayBufferToBase64 ct := by
    simp
  unfold decryptMessage
  rw [if_neg (not_not_intro hmem)]
  unfold envelopeOpens
  rw [split_envelope ha hb]
  simp only [List.getD_cons_zero, List.getD_cons_succ]
  rw [base64_roundtrip iv hiv, base64_roundtrip ct hct]
  simp only [hdec, htext]

/-- Witness for C3 at a concrete input: the identity-crypto model, a 12-byte
IV and the plaintext `"hi"`. -/
theorem open_seal_roundtrip_witness :
    decryptMessage idCrypto
      (encryptMessage idCrypto [0, 1, 2, 3, 4, 5, 6, 7, 8, 9, 10, 11] "hi".data) =
      "hi".data :=
  open_seal_roundtrip idCrypto [0, 1, 2, 3, 4, 5, 6, 7, 8, 9, 10, 11] [104, 105] "hi".data
    (by decide) (by decide) (by decide) (by decide) (by decide)

/-- C4: `decryptMessage` is total (it is a Lean function) and returns its input
unchanged on every input that fails to decode as a valid envelope: strings
without the `:` marker, and strings where the decode chain (base64 of either
part, or GCM decryption) fails. -/
theorem open_undecodable_id (c : CryptoModel) (s : List Char) :
    (':' ∉ s → decryptMessage c s = s) ∧
    (envelopeOpens c s = none → decryptMessage c s = s) := by
  constructor
  · intro h
    unfold decryptMessage
    rw [if_pos h]
  · intro h
    unfold decryptMessage
    by_cases hc : ':' ∉ s
    · rw [if_pos hc]
    · rw [if_neg hc, h]

/-- Witness for C4 at concrete inputs: a marker-free string, and a string with
the marker whose GCM decryption fails. -/
theorem open_undecodable_id_witness :
    decryptMessage failCrypto "plain text".data = "plain text".data ∧
    decryptMessage failCrypto "ab:cd".data = "ab:cd".data :=
  ⟨(open_undecodable_id failCrypto "plain text".data).1 (by decide),
   (open_undecodable_id failCrypto "ab:cd".data).2 (by decide)⟩

/-- C10: `encryptMessage` is total, and when any step of key derivation or
encryption fails internally (the `encGCM` call returns `none`), it returns the
plaintext input unchanged — so its output need not be a valid envelope. -/
theorem seal_fallback_plaintext (c : CryptoModel) (iv : List Nat) (text : List Char)
    (h : c.encGCM iv (c.encodeText text) = none) :
    encryptMessage c iv text = text := by
  unfold encryptMessage
  rw [h]

/-- Witness for C10 at a concrete input: the always-failing crypto model. -/
theorem seal_fallback_plaintext_witness :
    encryptMessage failCrypto [0, 1, 2] "secret".data = "secret".data :=
  seal_fallback_plaintext failCrypto [0, 1, 2] "secret".data (by decide)

/-! ### Lemmas: store plumbing -/

lemma arrayUnion_mem {l : List String} {x y : String} :
    x ∈ arrayUnion l y ↔ x ∈ l ∨ x = y := by
  by_cases h : y ∈ l
  · simp only [arrayUnion, if_pos h]
    exact ⟨Or.inl, fun hc => hc.elim id (fun he => he ▸ h)⟩
  · simp [arrayUnion, if_neg h]

lemma self_mem_arrayUnion {l : List String} {y : String} : y ∈ arrayUnion l y :=
  arrayUnion_mem.mpr (Or.inr rfl)

lemma arrayUnion_of_mem {l : List String} {y : String} (h : y ∈ l) :
    arrayUnion l y = l := by
  simp [arrayUnion, if_pos h]

lemma map_id_of {α : Type} {l : List α} {f : α → α} (h : ∀ x ∈ l, f x = x) :
    l.map f = l := by
  induction l with
  | nil => rfl
  | cons a rest ih =>
    simp only [List.map_cons, h a (by simp), ih (fun x hx => h x (by simp [hx]))]

lemma find?_key_unique {l : List (String × Room)} {p : String × Room}
    (hnodup : (l.map Prod.fst).Nodup) (hp : p ∈ l) :
    l.find? (fun q => q.1 = p.1) = some p := by
  induction l with
  | nil => cases hp
  | cons a rest ih =>
    rcases List.mem_cons.mp hp with rfl | hmem
    · exact List.find?_cons_of_pos _ (by simp)
    · have hna : a.1 ∉ rest.map Prod.fst := (List.nodup_cons.mp hnodup).1
      have hne : ¬(a.1 = p.1) := fun he =>
        hna (he ▸ List.mem_map_of_mem Prod.fst hmem)
      rw [List.find?_cons_of_neg _ (by simpa using hne)]
      exact ih (List.nodup_cons.mp hnodup).2 hmem

lemma mem_of_getRoom {st : Store} {rid : String} {room : Room}
    (h : getRoom st rid = some room) : (rid, room) ∈ st.rooms := by
  unfold getRoom at h
  cases hf : st.rooms.find? (fun p => p.1 = rid) with
  | none => rw [hf] at h; cases h
  | some q =>
    rw [hf] at h
    have hq : q.1 = rid := by simpa using List.find?_some hf
    have hmem := List.mem_of_find?_eq_some hf
    cases h
    have : q = (rid, q.2) := by rw [← hq]
    rw [← this]; exact hmem

lemma getRoom_updateRoom (st : Store) (rid : String) (f : Room → Room) :
    getRoom (updateRoom st rid f) rid = (getRoom st rid).map f := by
  unfold getRoom updateRoom
  induction st.rooms with
  | nil => rfl
  | cons a rest ih =>
    by_cases h : a.1 = rid
    · simp only [List.map_cons, if_pos h]
      rw [List.find?_cons_of_pos _ (by simpa using h),
        List.find?_cons_of_pos _ (by simpa using h)]
      rfl
    · simp only [List.map_cons, if_neg h]
      rw [List.find?_cons_of_neg _ (by simpa using h),
        List.find?_cons_of_neg _ (by simpa using h)]
      exact ih

lemma find?_map_replace (rid : String) (r : Room) :
    ∀ (l : List (String × Room)), (∃ q ∈ l, q.1 = rid) →
      (l.map (fun p => if p.1 = rid then (rid, r) else p)).find? (fun p => p.1 = rid) =
        some (rid, r)
  | [], hex => absurd hex (by simp)
  | a :: rest, hex => by
    by_cases h : a.1 = rid
    · simp only [List.map_cons, if_pos h]
      rw [List.find?_cons_of_pos _ (by simp)]
    · simp only [List.map_cons, if_neg h]
      rw [List.find?_cons_of_neg _ (by simpa using h)]
      obtain ⟨q, hq, hqk⟩ := hex
      rcases List.mem_cons.mp hq with rfl | hmem
      · exact absurd hqk h
      · exact find?_map_replace rid r rest ⟨q, hmem, hqk⟩

lemma find?_append_new (rid : String) (r : Room) :
    ∀ (l : List (String × Room)), (∀ q ∈ l, ¬(q.1 = rid)) →
      (l ++ [(rid, r)]).find? (fun p => p.1 = rid) = some (rid, r)
  | [], _ => by simp [List.find?]
  | a :: rest, hall => by
    rw [List.cons_append,
      List.find?_cons_of_neg _ (by simpa using hall a (by simp))]
    exact find?_append_new rid r rest (fun q hq => hall q (by simp [hq]))

lemma getRoom_putRoom (st : Store) (rid : String) (r : Room) :
    getRoom (putRoom st rid r) rid = some r := by
  unfold getRoom putRoom
  by_cases hex : st.rooms.any (fun p => p.1 = rid)
  · simp only [if_pos hex]
    have hexx : ∃ q ∈ st.rooms, q.1 = rid := by
      obtain ⟨q, hq, hqk⟩ := List.any_eq_true.mp hex
      exact ⟨q, hq, by simpa using hqk⟩
    rw [show (fun p : String × Room => if p.1 = rid then (rid, r) else p) =
        (fun p : String × Room => if p.1 = rid then (rid, r) else p) from rfl]
    rw [find?_map_replace rid r st.rooms hexx]
    rfl
  · simp only [if_neg hex]
    have hall : ∀ q ∈ st.rooms, ¬(q.1 = rid) := fun q hq hqk =>
      hex (List.any_eq_true.mpr ⟨q, hq, by simpa using hqk⟩)
    rw [find?_append_new rid r st.rooms hall]
    rfl

lemma updateRoom_updateRoom (st : Store) (rid : String) (f g : Room → Room) :
    updateRoom (updateRoom st rid f) rid g = updateRoom st rid (fun r => g (f r)) := by
  unfold updateRoom
  simp only [List.map_map]
  congr 1
  apply List.map_congr_left
  intro p _
  by_cases h : p.1 = rid <;> simp [Function.comp, h]

lemma storeInvariant_updateRoom_of {st : Store} {rid : String} {f : Room → Room}
    {room : Room}
    (hnodup : (st.rooms.map Prod.fst).Nodup)
    (hg : getRoom st rid = some room)
    (hinv : storeInvariant st)
    (hf : roomInvariant (f room)) :
    storeInvariant (updateRoom st rid f) := by
  intro p hp
  unfold updateRoom at hp
  simp only [List.mem_map] at hp
  obtain ⟨q, hq, heq⟩ := hp
  by_cases hk : q.1 = rid
  · have huniq : st.rooms.find? (fun r => r.1 = q.1) = some q :=
      find?_key_unique hnodup hq
    have hroom : q.2 = room := by
      unfold getRoom at hg
      rw [hk] at huniq
      rw [huniq] at hg
      simpa using hg
    rw [if_pos hk] at heq
    rw [← heq]
    simpa [hroom] using hf
  · rw [if_neg hk] at heq
    rw [← heq]
    exact hinv q hq

lemma storeInvariant_putRoom_of {st : Store} {rid : String} {r : Room}
    (hinv : storeInvariant st) (hr : roomInvariant r) :
    storeInvariant (putRoom st rid r) := by
  intro p hp
  unfold putRoom at hp
  by_cases hex : st.rooms.any (fun q => q.1 = rid)
  · rw [if_pos hex] at hp
    simp only [List.mem_map] at hp
    obtain ⟨q, hq, heq⟩ := hp
    by_cases hk : q.1 = rid
    · rw [if_pos hk] at heq; rw [← heq]; exact hr
    · rw [if_neg hk] at heq; rw [← heq]; exact hinv q hq
  · rw [if_neg hex] at hp
    rcases List.mem_append.mp hp with hold | hnew
    · exact hinv p hold
    · rw [List.mem_singleton.mp hnew]; exact hr

lemma getUserById_updateUser (st : Store) (i j : String) (f : User → User)
    (hid : ∀ u, (f u).id = u.id) :
    getUserById (updateUser st i f) j =
      if i = j then (getUserById st j).map f else getUserById st j := by
  unfold getUserById updateUser
  induction st.users with
  | nil => by_cases h : i = j <;> simp [h, List.find?]
  | cons a rest ih =>
    by_cases haj : a.id = j
    · by_cases hai : a.id = i
      · have hij : i = j := by rw [← hai, haj]
        simp only [List.map_cons, if_pos hai]
        rw [List.find?_cons_of_pos _ (by simp [hid, haj]),
          List.find?_cons_of_pos _ (by simpa using haj), if_pos hij]
        rfl
      · have hij : ¬(i = j) := fun he => hai (by rw [haj, he])
        simp only [List.map_cons, if_neg hai]
        rw [List.find?_cons_of_pos _ (by simpa using haj),
          List.find?_cons_of_pos _ (by simpa using haj), if_neg hij]
    · by_cases hai : a.id = i
      · simp only [List.map_cons, if_pos hai]
        rw [List.find?_cons_of_neg _ (by simp [hid, haj]),
          List.find?_cons_of_neg _ (by simpa using haj)]
        exact ih
      · simp only [List.map_cons, if_neg hai]
        rw [List.find?_cons_of_neg _ (by simpa using haj),
          List.find?_cons_of_neg _ (by simpa using haj)]
        exact ih

/-! ### Claim theorems: room registry -/

/-- C9: `executeCommand` performs no role check on the acting caller — for any
two acting admin ids and otherwise identical arguments and store, the result
message and the store mutation are identical; the outcome is independent of who
the caller is. -/
theorem executeCommand_ignores_caller (st : Store)
    (roomId a1 a2 command targetUsername : String) :
    executeCommand st roomId a1 command targetUsername =
      executeCommand st roomId a2 command targetUsername := rfl

/-- C6: access control of `joinRoom` on an existing room: non-administrative
callers fail with the `Banned` error when on the ban list, fail with the
private-channel `AccessDenied` error on closed private rooms, and are otherwise
added to `participants` only if absent; administrative callers bypass both
checks and are added if absent; and joining twice leaves the store exactly as
joining once. -/
theorem joinRoom_access_control (st : Store) (roomId uid : String) (room : Room)
    (hg : getRoom st roomId = some room) :
    (uid ∈ room.bannedUsers →
      joinRoom st roomId uid false =
        ({ success := false, error := some "Access Denied: Banned." }, st)) ∧
    (uid ∉ room.bannedUsers → room.type = RoomType.priv → uid ∉ room.participants →
      joinRoom st roomId uid false =
        ({ success := false, error := some "Access Denied: Private channel." }, st)) ∧
    (uid ∉ room.bannedUsers → (room.type = RoomType.priv → uid ∈ room.participants) →
      joinRoom st roomId uid false =
        ({ success := true },
         if uid ∈ room.participants then st
         else updateRoom st roomId
           (fun r => { r with participants := arrayUnion r.participants uid }))) ∧
    (joinRoom st roomId uid true =
      ({ success := true },
       if uid ∈ room.participants then st
       else updateRoom st roomId
         (fun r => { r with participants := arrayUnion r.participants uid }))) ∧
    (∀ isAdmin : Bool,
      (joinRoom (joinRoom st roomId uid isAdmin).2 roomId uid isAdmin).2 =
        (joinRoom st roomId uid isAdmin).2) := by
  refine ⟨?_, ?_, ?_, ?_, ?_⟩
  · intro hban
    simp [joinRoom, hg, hban]
  · intro hban hpriv hout
    simp [joinRoom, hg, hban, hpriv, hout]
  · intro hban hopen
    by_cases hmem : uid ∈ room.participants
    · simp [joinRoom, hg, hban, hmem]
    · have hpriv : ¬(room.type = RoomType.priv ∧ uid ∉ room.participants) :=
        fun hc => hmem (hopen hc.1)
      have hnp : ¬(room.type = RoomType.priv) := fun ht => (hpriv ⟨ht, hmem⟩).elim
      simp [joinRoom, hg, hban, hmem, hnp]
  · by_cases hmem : uid ∈ room.participants <;> simp [joinRoom, hg, hmem]
  · intro isAdmin
    cases isAdmin with
    | true =>
      by_cases hmem : uid ∈ room.participants
      · have h1 : joinRoom st roomId uid true = ({ success := true }, st) := by
          simp [joinRoom, hg, hmem]
        rw [h1, h1]
      · have h1 : (joinRoom st roomId uid true).2 =
            updateRoom st roomId
              (fun r => { r with participants := arrayUnion r.participants uid }) := by
          simp [joinRoom, hg, hmem]
        have hg2 : getRoom (joinRoom st roomId uid true).2 roomId =
            some { room with participants := arrayUnion room.participants uid } := by
          rw [h1, getRoom_updateRoom, hg]; rfl
        generalize hst1 : (joinRoom st roomId uid true).2 = st1 at hg2 ⊢
        simp [joinRoom, hg2, self_mem_arrayUnion]
    | false =>
      by_cases hban : uid ∈ room.bannedUsers
      · have h1 : (joinRoom st roomId uid false).2 = st := by
          simp [joinRoom, hg, hban]
        rw [h1, h1]
      · by_cases hmem : uid ∈ room.participants
        · have h1 : (joinRoom st roomId uid false).2 = st := by
            have hpriv : ¬(room.type = RoomType.priv ∧ uid ∉ room.participants) :=
              fun hc => hc.2 hmem
            simp [joinRoom, hg, hban, hmem, hpriv]
          rw [h1, h1]
        · by_cases hpriv : room.type = RoomType.priv
          · have h1 : (joinRoom st roomId uid false).2 = st := by
              simp [joinRoom, hg, hban, hpriv, hmem]
            rw [h1, h1]
          · have h1 : (joinRoom st roomId uid false).2 =
                updateRoom st roomId
                  (fun r => { r with participants := arrayUnion r.participants uid }) := by
              simp [joinRoom, hg, hban, hpriv, hmem]
            have hg2 : getRoom (joinRoom st roomId uid false).2 roomId =
                some { room with participants := arrayUnion room.participants uid } := by
              rw [h1, getRoom_updateRoom, hg]; rfl
            have hmem2 : uid ∈ arrayUnion room.participants uid := self_mem_arrayUnion
            have hpriv2 : ¬({ room with participants := arrayUnion room.participants uid }.type
                = RoomType.priv ∧
                uid ∉ ({ room with participants := arrayUnion room.participants uid }).participants) :=
              fun hc => hc.2 hmem2
            generalize hst1 : (joinRoom st roomId uid false).2 = st1 at hg2 ⊢
            simp [joinRoom, hg2, hban, hmem2, hpriv2]

/-- Witness for C6 at concrete inputs: banned `dave` is rejected from the
fixture lobby, and the double-join equation at a fresh joiner `bob`. -/
theorem joinRoom_access_control_witness :
    joinRoom baseStore "1234567" "dave" false =
      ({ success := false, error := some "Access Denied: Banned." }, baseStore) ∧
    (joinRoom (joinRoom baseStore "1234567" "bob" false).2 "1234567" "bob" false).2 =
      (joinRoom baseStore "1234567" "bob" false).2 :=
  ⟨(joinRoom_access_control baseStore "1234567" "dave" lobbyRoom (by decide)).1
      (by decide),
   ((joinRoom_access_control baseStore "1234567" "bob" lobbyRoom (by decide)).2.2.2.2)
      false⟩

/-- C2: moderation actions.  With the target username resolving to `targetUser`
and the room present: `/ban` removes the target from `participants` and adds it
to `bannedUsers`, after which a non-administrative `joinRoom` by the target
fails with the access-denied (banned) error; `/kick` removes the target from
`participants` only; `/mute` adds the target to `mutedUsers` without touching
`participants`; and when no user record matches the username, `executeCommand`
fails with the user-not-found message and leaves the store unchanged. -/
theorem executeCommand_moderation (st : Store) (roomId aid targetUsername : String)
    (targetUser : User) (rest : List User) (room : Room)
    (hsearch : searchUsersByName st targetUsername = targetUser :: rest)
    (hg : getRoom st roomId = some room) :
    (executeCommand st roomId aid "/ban" targetUsername =
        ("User " ++ targetUsername ++ " banned.",
         updateRoom st roomId (fun r =>
           { r with participants := room.participants.filter (fun id => id ≠ targetUser.id),
                    bannedUsers := arrayUnion r.bannedUsers targetUser.id })) ∧
      getRoom (executeCommand st roomId aid "/ban" targetUsername).2 roomId =
        some { room with
                 participants := room.participants.filter (fun id => id ≠ targetUser.id),
                 bannedUsers := arrayUnion room.bannedUsers targetUser.id } ∧
      targetUser.id ∉ room.participants.filter (fun id => id ≠ targetUser.id) ∧
      targetUser.id ∈ arrayUnion room.bannedUsers targetUser.id ∧
      joinRoom (executeCommand st roomId aid "/ban" targetUsername).2 roomId
          targetUser.id false =
        ({ success := false, error := some "Access Denied: Banned." },
         (executeCommand st roomId aid "/ban" targetUsername).2)) ∧
    (executeCommand st roomId aid "/kick" targetUsername =
        ("User " ++ targetUsername ++ " kicked.",
         updateRoom st roomId (fun r =>
           { r with participants := room.participants.filter (fun id => id ≠ targetUser.id) })) ∧
      getRoom (executeCommand st roomId aid "/kick" targetUsername).2 roomId =
        some { room with
                 participants := room.participants.filter (fun id => id ≠ targetUser.id) }) ∧
    (executeCommand st roomId aid "/mute" targetUsername =
        ("User " ++ targetUsername ++ " muted.",
         updateRoom st roomId (fun r =>
           { r with mutedUsers := arrayUnion r.mutedUsers targetUser.id })) ∧
      getRoom (executeCommand st roomId aid "/mute" targetUsername).2 roomId =
        some { room with mutedUsers := arrayUnion room.mutedUsers targetUser.id }) ∧
    (∀ (st2 : Store) (rid2 aid2 cmd2 : String),
      searchUsersByName st2 targetUsername = [] →
      executeCommand st2 rid2 aid2 cmd2 targetUsername =
        ("User " ++ targetUsername ++ " not found", st2)) := by
  have heq : executeCommand st roomId aid "/ban" targetUsername =
      ("User " ++ targetUsername ++ " banned.",
       updateRoom st roomId (fun r =>
         { r with participants := room.participants.filter (fun id => id ≠ targetUser.id),
                  bannedUsers := arrayUnion r.bannedUsers targetUser.id })) := by
    simp [executeCommand, hsearch, hg]
  have hgban : getRoom (executeCommand st roomId aid "/ban" targetUsername).2 roomId =
      some { room with
               participants := room.participants.filter (fun id => id ≠ targetUser.id),
               bannedUsers := arrayUnion room.bannedUsers targetUser.id } := by
    rw [heq, getRoom_updateRoom, hg]
    rfl
  refine ⟨⟨heq, hgban, ?_, self_mem_arrayUnion, ?_⟩, ⟨?_, ?_⟩, ⟨?_, ?_⟩, ?_⟩
  · simp
  · simp [joinRoom, hgban, self_mem_arrayUnion]
  · simp [executeCommand, hsearch, hg]
  · have heqk : executeCommand st roomId aid "/kick" targetUsername =
        ("User " ++ targetUsername ++ " kicked.",
         updateRoom st roomId (fun r =>
           { r with participants := room.participants.filter (fun id => id ≠ targetUser.id) })) := by
      simp [executeCommand, hsearch, hg]
    rw [heqk, getRoom_updateRoom, hg]
    rfl
  · simp [executeCommand, hsearch, hg]
  · have heqm : executeCommand st roomId aid "/mute" targetUsername =
        ("User " ++ targetUsername ++ " muted.",
         updateRoom st roomId (fun r =>
           { r with mutedUsers := arrayUnion r.mutedUsers targetUser.id })) := by
      simp [executeCommand, hsearch, hg]
    rw [heqm, getRoom_updateRoom, hg]
    rfl
  · intro st2 rid2 aid2 cmd2 hs2
    simp [executeCommand, hs2]

/-- Witness for C2 at concrete inputs: banning `Carol` in the fixture lobby,
and a lookup miss for `Carol` against an empty user collection. -/
theorem executeCommand_moderation_witness :
    (executeCommand baseStore "1234567" "alice" "/ban" "Carol").1 =
      "User Carol banned." ∧
    joinRoom (executeCommand baseStore "1234567" "alice" "/ban" "Carol").2 "1234567"
        "carol" false =
      ({ success := false, error := some "Access Denied: Banned." },
       (executeCommand baseStore "1234567" "alice" "/ban" "Carol").2) ∧
    executeCommand { users := [], rooms := [] } "z" "alice" "/kick" "Carol" =
      ("User Carol not found", { users := [], rooms := [] }) := by
  have h := executeCommand_moderation baseStore "1234567" "alice" "Carol" carol []
    lobbyRoom (by decide) (by decide)
  exact ⟨by rw [h.1.1]; rfl, h.1.2.2.2.2,
    h.2.2.2 { users := [], rooms := [] } "z" "alice" "/kick" (by decide)⟩

/-- C1 counterexample: the invariant `bannedUsers ∩ participants = ∅` is NOT
preserved by every core mutation — an administrative `joinRoom` bypasses the
ban check and re-adds banned `dave` to `participants` of the fixture lobby
while `dave` stays on `bannedUsers`. -/
theorem joinRoom_admin_breaks_ban_invariant :
    storeInvariant baseStore ∧
    ¬ storeInvariant (joinRoom baseStore "1234567" "dave" true).2 := by
  constructor
  · decide
  · decide

/-- C1 (amended): the disjointness invariant is preserved by every core
mutation except administrative joins — non-administrative `joinRoom`, every
`executeCommand` action (ban evicts the target in the same update that bans
it), creation of a room that itself satisfies the invariant, and the
friend-accept flow (its private room is created with empty `bannedUsers`).
Room ids are assumed unique in the store, as in the backing document store. -/
theorem banAction_preserves_disjointness (st : Store)
    (roomId uid aid cmd t a b : String) (room : Room) (now : Nat) (action : FrAction)
    (hnodup : (st.rooms.map Prod.fst).Nodup)
    (hinv : storeInvariant st) (hroom : roomInvariant room) :
    storeInvariant (joinRoom st roomId uid false).2 ∧
    storeInvariant (executeCommand st roomId aid cmd t).2 ∧
    storeInvariant (createRoom st room) ∧
    storeInvariant (handleFriendRequest st a b action now) := by
  refine ⟨?_, ?_, ?_, ?_⟩
  · cases hg : getRoom st roomId with
    | none => simpa [joinRoom, hg] using hinv
    | some r =>
      have hr : roomInvariant r := hinv _ (mem_of_getRoom hg)
      by_cases hban : uid ∈ r.bannedUsers
      · simpa [joinRoom, hg, hban] using hinv
      · by_cases hpriv : r.type = RoomType.priv ∧ uid ∉ r.participants
        · simpa [joinRoom, hg, hban, hpriv] using hinv
        · by_cases hmem : uid ∈ r.participants
          · simpa [joinRoom, hg, hban, hpriv, hmem] using hinv
          · have hnp : ¬(r.type = RoomType.priv) := fun ht => hpriv ⟨ht, hmem⟩
            have h2 : (joinRoom st roomId uid false).2 = updateRoom st roomId
                (fun rr => { rr with participants := arrayUnion rr.participants uid }) := by
              simp [joinRoom, hg, hban, hnp, hmem]
            rw [h2]
            refine storeInvariant_updateRoom_of hnodup hg hinv ?_
            intro x hx hxmem
            rcases arrayUnion_mem.mp hxmem with hxp | hxe
            · exact hr x hx hxp
            · exact hban (hxe ▸ hx)
  · cases hs : searchUsersByName st t with
    | nil => simpa [executeCommand, hs] using hinv
    | cons u urest =>
      cases hg : getRoom st roomId with
      | none => simpa [executeCommand, hs, hg] using hinv
      | some r =>
        have hr : roomInvariant r := hinv _ (mem_of_getRoom hg)
        by_cases hk : cmd = "/kick"
        · have h2 : (executeCommand st roomId aid cmd t).2 = updateRoom st roomId
              (fun rr =>
                { rr with participants := r.participants.filter (fun id => id ≠ u.id) }) := by
            simp [executeCommand, hs, hg, hk]
          rw [h2]
          refine storeInvariant_updateRoom_of hnodup hg hinv ?_
          intro x hx hxmem
          exact hr x hx (List.mem_of_mem_filter hxmem)
        · by_cases hb : cmd = "/ban"
          · have h2 : (executeCommand st roomId aid cmd t).2 = updateRoom st roomId
                (fun rr =>
                  { rr with
                      participants := r.participants.filter (fun id => id ≠ u.id),
                      bannedUsers := arrayUnion rr.bannedUsers u.id }) := by
              simp [executeCommand, hs, hg, hk, hb]
            rw [h2]
            refine storeInvariant_updateRoom_of hnodup hg hinv ?_
            intro x hx hxmem
            rcases arrayUnion_mem.mp hx with hxb | hxe
            · exact hr x hxb (List.mem_of_mem_filter hxmem)
            · exact absurd hxe (by simpa using List.of_mem_filter hxmem)
          · by_cases hm : cmd = "/mute"
            · have h2 : (executeCommand st roomId aid cmd t).2 = updateRoom st roomId
                  (fun rr =>
                    { rr with mutedUsers := arrayUnion rr.mutedUsers u.id }) := by
                simp [executeCommand, hs, hg, hk, hb, hm]
              rw [h2]
              refine storeInvariant_updateRoom_of hnodup hg hinv ?_
              intro x hx hxmem
              exact hr x hx hxmem
            · simpa [executeCommand, hs, hg, hk, hb, hm] using hinv
  · exact storeInvariant_putRoom_of hinv hroom
  · unfold handleFriendRequest
    split
    · exact hinv
    · split
      · exact fun p hp => hinv p hp
      · dsimp only
        split
        · exact fun p hp => hinv p hp
        · refine storeInvariant_putRoom_of (fun p hp => hinv p hp) ?_
          intro x hx
          simp at hx

/-- Witness for the amended C1 at concrete inputs. -/
theorem banAction_preserves_disjointness_witness :
    storeInvariant (joinRoom baseStore "1234567" "carol" false).2 ∧
    storeInvariant (executeCommand baseStore "1234567" "alice" "/ban" "Carol").2 ∧
    storeInvariant (createRoom baseStore pairRoom) ∧
    storeInvariant (handleFriendRequest baseStore "alice" "bob" FrAction.accept 5) :=
  banAction_preserves_disjointness baseStore "1234567" "carol" "alice" "/ban" "Carol"
    "alice" "bob" pairRoom 5 FrAction.accept (by decide) (by decide) (by decide)

/-! ### Claim theorems: read receipts -/

lemma collectMarkTargets_eq (u : String) : ∀ (msgs : List Message) (c : Nat),
    collectMarkTargets u msgs c =
      ((msgs.filter (fun m => qualifies u m)).take (maxBatch - c)).map Message.id
  | [], c => by simp [collectMarkTargets]
  | m :: rest, c => by
    by_cases hc : maxBatch ≤ c
    · have h0 : maxBatch - c = 0 := by omega
      simp [collectMarkTargets, hc, h0]
    · by_cases hq : qualifies u m = true
      · have h1 : maxBatch - c = (maxBatch - (c + 1)) + 1 := by omega
        simp [collectMarkTargets, hc, hq, h1, collectMarkTargets_eq u rest (c + 1)]
      · simp [collectMarkTargets, hc, hq, collectMarkTargets_eq u rest c]

/-- C7: the embedded-array `markMessagesAsRead` is idempotent — running it
twice with the same arguments leaves the store exactly as running it once —
and, on the stored room, it modifies exactly the messages satisfying the
qualification predicate (`sender == user`, `senderName != readerId`,
`readerId ∉ readBy`), extending only their `readBy` by the reader and changing
nothing else about any message or any other room field. -/
theorem markRead_idempotent_exact (st : Store) (roomId u : String) (room : Room)
    (hg : getRoom st roomId = some room) :
    markMessagesAsRead (markMessagesAsRead st roomId u room) roomId u room =
      markMessagesAsRead st roomId u room ∧
    ∃ r', getRoom (markMessagesAsRead st roomId u room) roomId = some r' ∧
      r'.id = room.id ∧ r'.name = room.name ∧ r'.type = room.type ∧
      r'.creatorId = room.creatorId ∧ r'.createdAt = room.createdAt ∧
      r'.participants = room.participants ∧ r'.bannedUsers = room.bannedUsers ∧
      r'.mutedUsers = room.mutedUsers ∧
      r'.messages.length = room.messages.length ∧
      ∀ i < room.messages.length,
        (qualifies u (room.messages.getD i dummyMessage) = true →
          r'.messages.getD i dummyMessage =
            { room.messages.getD i dummyMessage with
                readBy := (room.messages.getD i dummyMessage).readBy ++ [u] }) ∧
        (qualifies u (room.messages.getD i dummyMessage) = false →
          r'.messages.getD i dummyMessage = room.messages.getD i dummyMessage) := by
  by_cases hc : room.messages.any (fun msg => qualifies u msg) = true
  · have h1 : markMessagesAsRead st roomId u room = updateRoom st roomId
        (fun r => { r with messages := room.messages.map (fun msg =>
          if qualifies u msg then { msg with readBy := msg.readBy ++ [u] } else msg) }) := by
      simp only [markMessagesAsRead, if_pos hc]
    have h2 : ∀ st0 : Store, markMessagesAsRead st0 roomId u room =
        updateRoom st0 roomId (fun r => { r with messages := room.messages.map (fun msg =>
          if qualifies u msg then { msg with readBy := msg.readBy ++ [u] } else msg) }) :=
      fun st0 => by simp only [markMessagesAsRead, if_pos hc]
    constructor
    · rw [h2, h2, updateRoom_updateRoom]
    · refine ⟨{ room with messages := room.messages.map (fun msg =>
          if qualifies u msg then { msg with readBy := msg.readBy ++ [u] } else msg) },
        by rw [h2, getRoom_updateRoom, hg]; rfl, rfl, rfl, rfl, rfl, rfl, rfl,
        rfl, rfl, by simp, ?_⟩
      intro i hi
      have hlen : i < (room.messages.map (fun msg =>
          if qualifies u msg then { msg with readBy := msg.readBy ++ [u] } else msg)).length := by
        simpa using hi
      have hgetd : (room.messages.map (fun msg =>
          if qualifies u msg then { msg with readBy := msg.readBy ++ [u] } else msg)).getD
            i dummyMessage =
          (fun msg => if qualifies u msg then { msg with readBy := msg.readBy ++ [u] }
            else msg) (room.messages.getD i dummyMessage) := by
        rw [List.getD_eq_getElem _ _ hlen, List.getElem_map,
          List.getD_eq_getElem _ _ hi]
      constructor
      · intro hq
        rw [hgetd]
        simp only [if_pos hq]
      · intro hq
        rw [hgetd]
        simp only [hq, Bool.false_eq_true, if_false]
  · have h1 : markMessagesAsRead st roomId u room = st := by
      simp [markMessagesAsRead, hc]
    have hall : ∀ m ∈ room.messages, ¬(qualifies u m = true) := by
      simpa using List.any_eq_false.mp (Bool.not_eq_true _ ▸ by simpa using hc)
    constructor
    · rw [h1, h1]
    · refine ⟨room, by rw [h1, hg], rfl, rfl, rfl, rfl, rfl, rfl, rfl, rfl, rfl, ?_⟩
      intro i hi
      constructor
      · intro hq
        have hmem : room.messages.getD i dummyMessage ∈ room.messages := by
          rw [List.getD_eq_getElem _ _ hi]
          exact List.getElem_mem _
        exact absurd hq (hall _ hmem)
      · intro _
        rfl

/-- Witness for C7 at a concrete input: the fixture chat room. -/
theorem markRead_idempotent_exact_witness :
    markMessagesAsRead (markMessagesAsRead chatStore "chat" "alice" chatRoom) "chat"
        "alice" chatRoom = markMessagesAsRead chatStore "chat" "alice" chatRoom :=
  (markRead_idempotent_exact chatStore "chat" "alice" chatRoom (by decide)).1

/-- C8: the sub-collection `markMessagesAsRead` is a bounded batch: one
invocation targets at most `maxBatch = 400` messages, namely the ids of the
first (oldest) 400 qualifying candidates in order, stops silently at the cap,
and leaves every message document outside the targeted set unchanged. -/
theorem markRead_batch_cap (docs : List Message) (u : String) (messages : List Message) :
    (collectMarkTargets u messages 0).length ≤ maxBatch ∧
    collectMarkTargets u messages 0 =
      ((messages.filter (fun m => qualifies u m)).take maxBatch).map Message.id ∧
    (markMessagesAsReadBatch docs u messages).length = docs.length ∧
    (∀ i < docs.length,
      (docs.getD i dummyMessage).id ∉ collectMarkTargets u messages 0 →
        (markMessagesAsReadBatch docs u messages).getD i dummyMessage =
          docs.getD i dummyMessage) := by
  have hcoll := collectMarkTargets_eq u messages 0
  refine ⟨?_, by simpa using hcoll, by simp [markMessagesAsReadBatch], ?_⟩
  · rw [hcoll]
    simp only [List.length_map, List.length_take, Nat.sub_zero]
    exact min_le_left _ _
  · intro i hi hnot
    unfold markMessagesAsReadBatch
    have hlen : i < (docs.map (fun d =>
        if d.id ∈ collectMarkTargets u messages 0 then
          { d with readBy := arrayUnion d.readBy u } else d)).length := by
      simpa using hi
    rw [List.getD_eq_getElem _ _ hlen, List.getElem_map,
      List.getD_eq_getElem _ _ hi] at *
    rw [if_neg hnot]

/-- Witness for C8 at a concrete input: three candidate messages, of which the
already-read one is not targeted and stays unchanged. -/
theorem markRead_batch_cap_witness :
    (collectMarkTargets "alice" [msgFromCarol, msgRead, msgSystem] 0).length ≤ maxBatch ∧
    (markMessagesAsReadBatch [msgFromCarol, msgRead, msgSystem] "alice"
        [msgFromCarol, msgRead, msgSystem]).getD 1 dummyMessage =
      [msgFromCarol, msgRead, msgSystem].getD 1 dummyMessage :=
  ⟨(markRead_batch_cap [msgFromCarol, msgRead, msgSystem] "alice"
      [msgFromCarol, msgRead, msgSystem]).1,
   (markRead_batch_cap [msgFromCarol, msgRead, msgSystem] "alice"
      [msgFromCarol, msgRead, msgSystem]).2.2.2 1 (by decide) (by decide)⟩

/-! ### Claim theorems: friend-request acceptance -/

lemma getRoom_updateUser (st : Store) (i : String) (f : User → User) (x : String) :
    getRoom (updateUser st i f) x = getRoom st x := rfl

lemma getUserById_putRoom (st : Store) (rid : String) (r : Room) (x : String) :
    getUserById (putRoom st rid r) x = getUserById st x := by
  unfold getUserById putRoom
  split <;> rfl

lemma users_putRoom (st : Store) (rid : String) (r : Room) :
    (putRoom st rid r).users = st.users := by
  unfold putRoom
  split <;> rfl

/-- C5: accepting a friend request removes the requester from the acceptor's
`friendRequests` (idempotently — by filtering, so also for a stale request) and
adds each user's id to the other's `friends`; the deterministic private room
`private-{sorted(A,B)}` is then created with participants exactly `[A, B]` iff
it was absent, an existing room being left untouched; and running the accept a
second time changes nothing at all. -/
theorem friendAccept_correct (st : Store) (a b : String) (uA : User) (now : Nat)
    (hA : getUserById st a = some uA) (hab : a ≠ b) :
    getUserById (handleFriendRequest st a b FrAction.accept now) a =
      some { uA with
        friendRequests := uA.friendRequests.filter (fun id => id ≠ b),
        friends := arrayUnion uA.friends b } ∧
    (∀ uB, getUserById st b = some uB →
      getUserById (handleFriendRequest st a b FrAction.accept now) b =
        some { uB with friends := arrayUnion uB.friends a }) ∧
    (getRoom st (privateRoomId a b) = none →
      ∃ r, getRoom (handleFriendRequest st a b FrAction.accept now)
          (privateRoomId a b) = some r ∧
        r.participants = [a, b] ∧ r.type = RoomType.priv ∧
        r.id = privateRoomId a b ∧ r.creatorId = "system" ∧
        r.bannedUsers = [] ∧ r.mutedUsers = []) ∧
    (∀ rr, getRoom st (privateRoomId a b) = some rr →
      getRoom (handleFriendRequest st a b FrAction.accept now)
          (privateRoomId a b) = some rr ∧
      (handleFriendRequest st a b FrAction.accept now).rooms = st.rooms) ∧
    (∀ now2, handleFriendRequest (handleFriendRequest st a b FrAction.accept now)
        a b FrAction.accept now2 = handleFriendRequest st a b FrAction.accept now) := by
  have hba : ¬(b = a) := fun h => hab h.symm
  -- the user-update chain shared by both branches of the room check
  have hform1 : ∀ rr, getRoom st (privateRoomId a b) = some rr →
      handleFriendRequest st a b FrAction.accept now =
        updateUser (updateUser (updateUser st a
            (fun u => { u with
              friendRequests := uA.friendRequests.filter (fun id => id ≠ b) })) a
            (fun u => { u with friends := arrayUnion u.friends b })) b
            (fun u => { u with friends := arrayUnion u.friends a }) := by
    intro rr hrm0
    simp only [handleFriendRequest, hA, getRoom_updateUser, hrm0]
  have hform2 : getRoom st (privateRoomId a b) = none →
      ∃ nr, handleFriendRequest st a b FrAction.accept now =
          putRoom (updateUser (updateUser (updateUser st a
              (fun u => { u with
                friendRequests := uA.friendRequests.filter (fun id => id ≠ b) })) a
              (fun u => { u with friends := arrayUnion u.friends b })) b
              (fun u => { u with friends := arrayUnion u.friends a }))
            (privateRoomId a b) nr ∧
        nr.participants = [a, b] ∧ nr.type = RoomType.priv ∧
        nr.id = privateRoomId a b ∧ nr.creatorId = "system" ∧
        nr.bannedUsers = [] ∧ nr.mutedUsers = [] := by
    intro hrm0
    simp only [handleFriendRequest, hA, getRoom_updateUser, hrm0]
    exact ⟨_, rfl, rfl, rfl, rfl, rfl, rfl, rfl⟩
  -- the acceptor's and requester's records after the chain
  have hvalA : getUserById (updateUser (updateUser (updateUser st a
      (fun u => { u with
        friendRequests := uA.friendRequests.filter (fun id => id ≠ b) })) a
      (fun u => { u with friends := arrayUnion u.friends b })) b
      (fun u => { u with friends := arrayUnion u.friends a })) a =
      some { uA with
        friendRequests := uA.friendRequests.filter (fun id => id ≠ b),
        friends := arrayUnion uA.friends b } := by
    rw [getUserById_updateUser _ b a _ (by intro u; rfl), if_neg hba,
      getUserById_updateUser _ a a _ (by intro u; rfl), if_pos rfl,
      getUserById_updateUser _ a a _ (by intro u; rfl), if_pos rfl, hA]
    rfl
  have hvalB : ∀ uB, getUserById st b = some uB →
      getUserById (updateUser (updateUser (updateUser st a
        (fun u => { u with
          friendRequests := uA.friendRequests.filter (fun id => id ≠ b) })) a
        (fun u => { u with friends := arrayUnion u.friends b })) b
        (fun u => { u with friends := arrayUnion u.friends a })) b =
      some { uB with friends := arrayUnion uB.friends a } := by
    intro uB hB
    rw [getUserById_updateUser _ b b _ (by intro u; rfl), if_pos rfl,
      getUserById_updateUser _ a b _ (by intro u; rfl), if_neg hab,
      getUserById_updateUser _ a b _ (by intro u; rfl), if_neg hab, hB]
    rfl
  have hc1 : getUserById (handleFriendRequest st a b FrAction.accept now) a =
      some { uA with
        friendRequests := uA.friendRequests.filter (fun id => id ≠ b),
        friends := arrayUnion uA.friends b } := by
    cases hrm : getRoom st (privateRoomId a b) with
    | some rr => rw [hform1 rr hrm]; exact hvalA
    | none =>
      obtain ⟨nr, hfin, -⟩ := hform2 hrm
      rw [hfin, getUserById_putRoom]
      exact hvalA
  have hc2 : ∀ uB, getUserById st b = some uB →
      getUserById (handleFriendRequest st a b FrAction.accept now) b =
        some { uB with friends := arrayUnion uB.friends a } := by
    intro uB hB
    cases hrm : getRoom st (privateRoomId a b) with
    | some rr => rw [hform1 rr hrm]; exact hvalB uB hB
    | none =>
      obtain ⟨nr, hfin, -⟩ := hform2 hrm
      rw [hfin, getUserById_putRoom]
      exact hvalB uB hB
  refine ⟨hc1, hc2, ?_, ?_, ?_⟩
  · intro hnone
    obtain ⟨nr, hfin, hp, ht, hi, hcr, hb0, hm0⟩ := hform2 hnone
    exact ⟨nr, by rw [hfin, getRoom_putRoom], hp, ht, hi, hcr, hb0, hm0⟩
  · intro rr hsome
    constructor
    · rw [hform1 rr hsome, getRoom_updateUser, getRoom_updateUser, getRoom_updateUser]
      exact hsome
    · rw [hform1 rr hsome]
      rfl
  · intro now2
    -- every user document of the result already carries the accepted state
    have huseq : (handleFriendRequest st a b FrAction.accept now).users =
        ((st.users.map (fun u => if u.id = a then { u with
            friendRequests := uA.friendRequests.filter (fun id => id ≠ b) } else u)).map
          (fun u => if u.id = a then { u with friends := arrayUnion u.friends b } else u)).map
          (fun u => if u.id = b then { u with friends := arrayUnion u.friends a } else u) := by
      cases hrm : getRoom st (privateRoomId a b) with
      | some rr =>
        rw [hform1 rr hrm]
        rfl
      | none =>
        obtain ⟨nr, hfin, -⟩ := hform2 hrm
        rw [hfin, users_putRoom]
        rfl
    have husersA : ∀ u ∈ (handleFriendRequest st a b FrAction.accept now).users,
        u.id = a →
        u.friendRequests = uA.friendRequests.filter (fun id => id ≠ b) ∧
        b ∈ u.friends := by
      intro u hu hidA
      rw [huseq] at hu
      simp only [List.mem_map] at hu
      obtain ⟨x2, ⟨x1, ⟨v, hv, rfl⟩, rfl⟩, rfl⟩ := hu
      by_cases hva : v.id = a
      · have hvb : ¬(v.id = b) := fun h => hab (by rw [← hva, h])
        constructor
        · simp [hva, hvb, hab]
        · simp [hva, hvb, hab, self_mem_arrayUnion]
      · exfalso
        apply hva
        by_cases hvb : v.id = b
        · simpa [hva, hvb, hab, hba] using hidA
        · simpa [hva, hvb, hab, hba] using hidA
    have husersB : ∀ u ∈ (handleFriendRequest st a b FrAction.accept now).users,
        u.id = b → a ∈ u.friends := by
      intro u hu hidB
      rw [huseq] at hu
      simp only [List.mem_map] at hu
      obtain ⟨x2, ⟨x1, ⟨v, hv, rfl⟩, rfl⟩, rfl⟩ := hu
      by_cases hvb : v.id = b
      · have hva : ¬(v.id = a) := fun h => hab (by rw [← h, hvb])
        simp [hva, hvb, hba, self_mem_arrayUnion]
      · exfalso
        apply hvb
        by_cases hva : v.id = a
        · simpa [hva, hvb, hab, hba] using hidB
        · simpa [hva, hvb, hab, hba] using hidB
    -- the three user updates of a second accept are identities
    have heq1 : updateUser (handleFriendRequest st a b FrAction.accept now) a
        (fun u => { u with
          friendRequests := uA.friendRequests.filter (fun id => id ≠ b) }) =
        handleFriendRequest st a b FrAction.accept now := by
      unfold updateUser
      rw [map_id_of (fun u hu => ?_)]
      by_cases hid : u.id = a
      · rw [if_pos hid]
        have h10 := (husersA u hu hid).1
        cases u
        simp only at h10
        simp [h10]
      · rw [if_neg hid]
    have heq2 : updateUser (handleFriendRequest st a b FrAction.accept now) a
        (fun u => { u with friends := arrayUnion u.friends b }) =
        handleFriendRequest st a b FrAction.accept now := by
      unfold updateUser
      rw [map_id_of (fun u hu => ?_)]
      by_cases hid : u.id = a
      · rw [if_pos hid]
        have h10 := arrayUnion_of_mem ((husersA u hu hid).2)
        cases u
        simp only at h10
        simp [h10]
      · rw [if_neg hid]
    have heq3 : updateUser (handleFriendRequest st a b FrAction.accept now) b
        (fun u => { u with friends := arrayUnion u.friends a }) =
        handleFriendRequest st a b FrAction.accept now := by
      unfold updateUser
      rw [map_id_of (fun u hu => ?_)]
      by_cases hid : u.id = b
      · rw [if_pos hid]
        have h10 := arrayUnion_of_mem (husersB u hu hid)
        cases u
        simp only at h10
        simp [h10]
      · rw [if_neg hid]
    -- the room exists after the first accept
    have hroomAfter : ∃ rr2,
        getRoom (handleFriendRequest st a b FrAction.accept now)
          (privateRoomId a b) = some rr2 := by
      cases hrm : getRoom st (privateRoomId a b) with
      | some rr =>
        exact ⟨rr, by
          rw [hform1 rr hrm, getRoom_updateUser, getRoom_updateUser,
            getRoom_updateUser]
          exact hrm⟩
      | none =>
        obtain ⟨nr, hfin, -⟩ := hform2 hrm
        exact ⟨nr, by rw [hfin, getRoom_putRoom]⟩
    obtain ⟨rr2, hrr2⟩ := hroomAfter
    have hfilter : (uA.friendRequests.filter (fun id => id ≠ b)).filter
        (fun id => id ≠ b) = uA.friendRequests.filter (fun id => id ≠ b) :=
      List.filter_eq_self.mpr (fun x hx => (List.mem_filter.mp hx).2)
    generalize hstp : handleFriendRequest st a b FrAction.accept now = stp
      at hc1 heq1 heq2 heq3 hrr2 ⊢
    simp only [handleFriendRequest, hc1, hfilter]
    rw [heq1, heq2, heq3]
    simp only [getRoom_updateUser, hrr2]

/-- Witness for C5 at a concrete input: `alice` accepts `bob`'s pending request
in the fixture store (where the pair's private room already exists). -/
theorem friendAccept_correct_witness :
    getUserById (handleFriendRequest baseStore "alice" "bob" FrAction.accept 7)
        "alice" =
      some { alice with
        friendRequests := alice.friendRequests.filter (fun id => id ≠ "bob"),
        friends := arrayUnion alice.friends "bob" } ∧
    handleFriendRequest (handleFriendRequest baseStore "alice" "bob"
        FrAction.accept 7) "alice" "bob" FrAction.accept 9 =
      handleFriendRequest baseStore "alice" "bob" FrAction.accept 7 :=
  ⟨(friendAccept_correct baseStore "alice" "bob" alice 7 (by decide) (by decide)).1,
   (friendAccept_correct baseStore "alice" "bob" alice 7 (by decide)
      (by decide)).2.2.2.2 9⟩

end SecureChat
